import Mathlib

/-!
Verification of the swing_stock_finder signal pipeline.

The definitions below are a shallow embedding of the Python sources:
`enhanced_report.py` (signal staleness re-check), `scripts/tracking_manager.py`
(trade ledger operations), and `scripts/report_generator.py` (monthly metrics).
Prices and scores are modelled as rationals, dates as integer day numbers,
pandas NaN / Python None as `Option`, and the trades table as a `List Trade`.
-/

namespace SwingStock

/-- Result of reading the `date` field of a persisted signal record:
the field can be absent or empty (Python falsy), a non-empty string that
`strptime` rejects, or a successfully parsed date (an integer day number,
so that `(scan_date - signal_date).days` becomes integer subtraction). -/
inductive DateField where
  | missing
  | unparseable
  | parsed (day : Int)
  deriving DecidableEq, Repr

/-- A persisted signal record as consumed by the staleness re-check in
`enhanced_report.py`.  Only the fields the re-check reads or writes are
modelled; `latest_close` and `stop_loss_price` are `none` when the key is
absent or its value cannot be converted to a number. -/
structure Signal where
  signal_found : Bool
  date : DateField
  latest_close : Option ℚ
  stop_loss_price : Option ℚ
  symbol : String
  message : String
  deriving DecidableEq, Repr

/-- `is_signal_stale` from `enhanced_report.py` (lines 139-179): a signal that
is absent or already marked not found is never stale; a found signal with a
missing or unparseable date is stale; otherwise it is stale when it is older
than the scan date or the latest close is at or below the stop loss. -/
def is_signal_stale (signal : Signal) (scan_date : Int) : Bool :=
  if signal.signal_found = false then false
  else
    match signal.date with
    | .missing => true
    | .unparseable => true
    | .parsed d =>
        let is_below_stop_loss :=
          match signal.latest_close, signal.stop_loss_price with
          | some c, some sl => decide (c ≤ sl)
          | _, _ => false
        decide (scan_date - d > 0) || is_below_stop_loss

/-- The invalidation step `generate_report_from_json` applies to the overall
signal (lines 183-187) and to each segment signal (lines 192-196): when
`is_signal_stale` holds, `signal_found` is set to false and the message is
replaced by a fixed stale-message text; otherwise the record is unchanged. -/
def invalidate_if_stale (signal : Signal) (scan_date : Int) (stale_message : String) : Signal :=
  if is_signal_stale signal scan_date then
    { signal with signal_found := false, message := stale_message }
  else signal

theorem sub_pos_decide (d scan : Int) : decide (scan - d > 0) = decide (d < scan) := by
  simp [gt_iff_lt, sub_pos]

/-- C2: for a found signal whose date parses and whose latest close and stop
loss are both numeric, the re-check marks it stale exactly when the signal
date is strictly before the scan date or the latest close is at or below the
stop loss; in the first case invalidation flips `signal_found` to false and
replaces the message, otherwise the record is returned unchanged. -/
theorem stale_check_age_or_stop (s : Signal) (scan d : Int) (c sl : ℚ) (msg : String)
    (hf : s.signal_found = true) (hd : s.date = .parsed d)
    (hc : s.latest_close = some c) (hsl : s.stop_loss_price = some sl) :
    is_signal_stale s scan = (decide (d < scan) || decide (c ≤ sl))
    ∧ ((d < scan ∨ c ≤ sl) →
        invalidate_if_stale s scan msg = { s with signal_found := false, message := msg })
    ∧ (¬ (d < scan ∨ c ≤ sl) → invalidate_if_stale s scan msg = s) := by
  have hstale : is_signal_stale s scan = (decide (d < scan) || decide (c ≤ sl)) := by
    rw [is_signal_stale, hf, hd]
    simp only [Bool.true_eq_false, if_false, hc, hsl, sub_pos_decide]
  refine ⟨hstale, ?_, ?_⟩
  · intro hcond
    rw [invalidate_if_stale, hstale]
    have : (decide (d < scan) || decide (c ≤ sl)) = true := by
      rcases hcond with h | h <;> simp [h]
    rw [this]
    simp
  · intro hcond
    push_neg at hcond
    rw [invalidate_if_stale, hstale]
    have : (decide (d < scan) || decide (c ≤ sl)) = false := by
      simp [hcond.1, hcond.2]
    rw [this]
    simp

/-- Concrete witness for C2: a found signal dated day 10 with close 100 above
stop 90, re-checked on day 11, is stale purely by age and gets invalidated. -/
def c2Signal : Signal :=
  { signal_found := true, date := .parsed 10, latest_close := some 100,
    stop_loss_price := some 90, symbol := "AAPL", message := "found" }

theorem stale_check_age_or_stop_witness :
    is_signal_stale c2Signal 11 = (decide ((10 : Int) < 11) || decide ((100 : ℚ) ≤ 90))
    ∧ invalidate_if_stale c2Signal 11 "stale" =
        { c2Signal with signal_found := false, message := "stale" } := by
  have h := stale_check_age_or_stop c2Signal 11 10 100 90 "stale" rfl rfl rfl rfl
  exact ⟨h.1, h.2.1 (Or.inl (by decide))⟩

/-- C5: the staleness re-check is idempotent — re-validating a re-validated
signal changes nothing — and a signal already marked not found is returned
unchanged. -/
theorem invalidate_idempotent (s : Signal) (scan : Int) (msg : String) :
    invalidate_if_stale (invalidate_if_stale s scan msg) scan msg
      = invalidate_if_stale s scan msg
    ∧ (s.signal_found = false → invalidate_if_stale s scan msg = s) := by
  constructor
  · by_cases h : is_signal_stale s scan = true
    · have h1 : invalidate_if_stale s scan msg
          = { s with signal_found := false, message := msg } := by
        rw [invalidate_if_stale, if_pos h]
      have h2 : is_signal_stale { s with signal_found := false, message := msg } scan
          = false := by
        rw [is_signal_stale]
        simp
      rw [h1, invalidate_if_stale, h2]
      simp
    · have h1 : invalidate_if_stale s scan msg = s := by
        rw [invalidate_if_stale, if_neg h]
      rw [h1]
      exact h1
  · intro h
    rw [invalidate_if_stale]
    have : is_signal_stale s scan = false := by
      rw [is_signal_stale, h]
      simp
    rw [this]
    simp

/-- Witness for C5 at a concrete record: a signal already marked not found is
unchanged by validation, and validating twice equals validating once. -/
def c5Signal : Signal :=
  { signal_found := false, date := .parsed 10, latest_close := some 100,
    stop_loss_price := some 90, symbol := "MSFT", message := "no signal" }

theorem invalidate_idempotent_witness :
    invalidate_if_stale (invalidate_if_stale c5Signal 11 "stale") 11 "stale"
      = invalidate_if_stale c5Signal 11 "stale"
    ∧ invalidate_if_stale c5Signal 11 "stale" = c5Signal := by
  have h := invalidate_idempotent c5Signal 11 "stale"
  exact ⟨h.1, h.2 rfl⟩

/-- C9: a found signal whose date field is absent, empty, or unparseable is
classified stale at every scan date and invalidated, even when its latest
close is strictly above its stop loss. -/
theorem stale_when_date_unreadable (s : Signal) (scan : Int) (msg : String) (c sl : ℚ)
    (hf : s.signal_found = true) (hd : s.date = .missing ∨ s.date = .unparseable)
    (hc : s.latest_close = some c) (hsl : s.stop_loss_price = some sl) (habove : sl < c) :
    is_signal_stale s scan = true
    ∧ (invalidate_if_stale s scan msg).signal_found = false
    ∧ invalidate_if_stale s scan msg = { s with signal_found := false, message := msg } := by
  have hstale : is_signal_stale s scan = true := by
    rcases hd with h | h <;> rw [is_signal_stale, hf, h] <;> simp
  refine ⟨hstale, ?_, ?_⟩
  · rw [invalidate_if_stale, hstale]
    simp
  · rw [invalidate_if_stale, hstale]
    simp

/-- Witness for C9: a found signal with a missing date and close 100 strictly
above stop 90 is stale on day 0 and gets invalidated. -/
def c9Signal : Signal :=
  { signal_found := true, date := .missing, latest_close := some 100,
    stop_loss_price := some 90, symbol := "GOOG", message := "found" }

theorem stale_when_date_unreadable_witness :
    is_signal_stale c9Signal 0 = true
    ∧ (invalidate_if_stale c9Signal 0 "stale").signal_found = false := by
  have h := stale_when_date_unreadable c9Signal 0 "stale" 100 90 rfl (Or.inl rfl) rfl rfl
    (by norm_num)
  exact ⟨h.1, h.2.1⟩

/-- The `status` column of a ledger row. -/
inductive TradeStatus where
  | Active
  | Closed
  deriving DecidableEq, Repr

/-- The `trade_type` column of a ledger row. -/
inductive TradeType where
  | TrackedSignal
  | ManualHistoricalPick
  deriving DecidableEq, Repr

/-- One row of `tracking/trades.csv` as written by `scripts/tracking_manager.py`
(the `CSV_HEADER` columns).  `Option` models `np.nan` / missing / non-numeric
cells; dates are integer day numbers. -/
structure Trade where
  trade_id : String
  symbol : String
  entry_date : Option Int
  entry_price : Option ℚ
  stop_loss_price : Option ℚ
  target_price : Option ℚ
  risk_reward_ratio : Option ℚ
  atr_at_entry : Option ℚ
  trade_type : TradeType
  source_signal_date : Option String
  status : TradeStatus
  current_price : Option ℚ
  unrealized_pnl : Option ℚ
  exit_date : Option Int
  exit_price : Option ℚ
  realized_pnl : Option ℚ
  exit_reason : String
  holding_period : Option Int
  notes : String
  deriving DecidableEq, Repr

/-- The signal dictionary passed to `add_tracked_signal`; every key may be
absent or `None`, which both collapse to `none` here. -/
structure SignalData where
  symbol : Option String
  entry_price : Option ℚ
  stop_loss_price : Option ℚ
  target_price : Option ℚ
  risk_reward_ratio : Option ℚ
  atr : Option ℚ
  date : Option String
  notes : Option String
  deriving DecidableEq, Repr

/-- Round to the nearest integer, halves to the even neighbour, as Python's
builtin `round` does on the exact value. -/
def roundHalfEven (x : ℚ) : Int :=
  let f := Int.floor x
  if x - f < 1 / 2 then f
  else if x - f > 1 / 2 then f + 1
  else if f % 2 = 0 then f else f + 1

/-- Python's `round(x, 2)` on the exact value: two decimal places, halves to
even. -/
def round2 (x : ℚ) : ℚ := (roundHalfEven (x * 100) : ℚ) / 100

/-- `add_tracked_signal` from `scripts/tracking_manager.py` (lines 79-132):
builds the new row, then validates that `symbol`, `entry_price`,
`stop_loss_price`, `target_price` and `date` are all present and non-null;
on failure returns `None` without writing, on success appends the row and
returns the trade id.  The trade id and the current date are injected as
parameters. -/
def add_tracked_signal (ledger : List Trade) (signal_data : SignalData)
    (trade_id : String) (today : Int) : Option String × List Trade :=
  let new_row : Trade :=
    { trade_id := trade_id
      symbol := signal_data.symbol.getD ""
      entry_date := some today
      entry_price := signal_data.entry_price
      stop_loss_price := signal_data.stop_loss_price
      target_price := signal_data.target_price
      risk_reward_ratio := signal_data.risk_reward_ratio
      atr_at_entry := signal_data.atr
      trade_type := .TrackedSignal
      source_signal_date := signal_data.date
      status := .Active
      current_price := none
      unrealized_pnl := none
      exit_date := none
      exit_price := none
      realized_pnl := none
      exit_reason := ""
      holding_period := none
      notes := signal_data.notes.getD "" }
  if signal_data.symbol.isSome && signal_data.entry_price.isSome
      && signal_data.stop_loss_price.isSome && signal_data.target_price.isSome
      && signal_data.date.isSome then
    (some trade_id, ledger ++ [new_row])
  else
    (none, ledger)

/-- The `calculated_rr_ratio` computation in `add_manual_historical_pick`
(lines 153-159): the ratio is computed only when `entry_price`,
`target_price` and `stop_loss_price` are all truthy in Python (present and
nonzero) and the risk per share exceeds `1e-9`; otherwise it stays `NaN`. -/
def manual_rr (entry_price stop_loss_price target_price : Option ℚ) : Option ℚ :=
  match entry_price, target_price, stop_loss_price with
  | some e, some t, some sl =>
      if e ≠ 0 ∧ t ≠ 0 ∧ sl ≠ 0 then
        if e - sl > 1 / 1000000000 then some ((t - e) / (e - sl)) else none
      else none
  | _, _, _ => none

/-- `add_manual_historical_pick` from `scripts/tracking_manager.py`
(lines 134-191): computes the risk:reward ratio via `manual_rr`, appends the
row and returns the trade id.  It performs no required-field validation.
The numeric arguments are `Option` because Python callers can pass `None`
for the `float`-annotated parameters. -/
def add_manual_historical_pick (ledger : List Trade) (symbol : String)
    (entry_price stop_loss_price target_price : Option ℚ)
    (notes trade_id : String) (today : Int) : Option String × List Trade :=
  let new_row : Trade :=
    { trade_id := trade_id
      symbol := symbol
      entry_date := some today
      entry_price := entry_price
      stop_loss_price := stop_loss_price
      target_price := target_price
      risk_reward_ratio := manual_rr entry_price stop_loss_price target_price
      atr_at_entry := none
      trade_type := .ManualHistoricalPick
      source_signal_date := none
      status := .Active
      current_price := none
      unrealized_pnl := none
      exit_date := none
      exit_price := none
      realized_pnl := none
      exit_reason := ""
      holding_period := none
      notes := notes }
  (some trade_id, ledger ++ [new_row])

/-- The per-row body of the `update_active_trades` loop (lines 222-284):
on a successful fetch the current price cell is overwritten, otherwise it is
left as it was; the unrealized P&L percentage is stored (rounded to two
decimals) only when the fetch succeeded and the entry price is numeric and
nonzero; the holding period is recomputed whenever the entry date parses. -/
def update_trade_row (t : Trade) (fetched : Option ℚ) (today : Int) : Trade :=
  let t1 :=
    match fetched with
    | some p => { t with current_price := some p }
    | none => t
  let t2 :=
    match fetched, t.entry_price with
    | some p, some e =>
        if e ≠ 0 then { t1 with unrealized_pnl := some (round2 ((p - e) / e * 100)) } else t1
    | _, _ => t1
  match t.entry_date with
  | some d => { t2 with holding_period := some (today - d) }
  | none => t2

/-- `update_active_trades` from `scripts/tracking_manager.py` (lines 197-293):
every `Active` row is updated via `update_trade_row`; the per-symbol price
fetch is injected as a function so a failing symbol simply yields `none`;
the batch always finishes and reports success. -/
def update_active_trades (ledger : List Trade) (fetch : String → Option ℚ)
    (today : Int) : Bool × List Trade :=
  (true, ledger.map (fun t =>
    if t.status = .Active then update_trade_row t (fetch t.symbol) today else t))

/-- Modelled from the spec: `close_trade` is called by
`scripts/tracking_manager.py` (line 391) and its tests but its definition is
not among the sources, so this row-level close follows section 4.7 of the
spec: an already `Closed` row is untouched; a fresh close sets the status to
`Closed`, records exit date, price and reason, computes the realized P&L the
same way as the unrealized P&L, and recomputes the holding period. -/
def close_trade_row (t : Trade) (exit_price : ℚ) (exit_reason : String) (today : Int) : Trade :=
  if t.status = .Closed then t
  else
    let realized : Option ℚ :=
      match t.entry_price with
      | some e => if e ≠ 0 then some (round2 ((exit_price - e) / e * 100)) else none
      | none => none
    { t with status := .Closed
             exit_date := some today
             exit_price := some exit_price
             realized_pnl := realized
             exit_reason := exit_reason
             holding_period :=
               match t.entry_date with
               | some d => some (today - d)
               | none => t.holding_period }

/-- Modelled from the spec: the table-level `close_trade` is absent from the
sources; per section 4.7 it requires an existing trade id (else it fails and
leaves the table unchanged) and rewrites the whole table, closing the
matching row via `close_trade_row`. -/
def close_trade (ledger : List Trade) (tid : String) (exit_price : ℚ)
    (exit_reason : String) (today : Int) : Bool × List Trade :=
  if ledger.any (fun t => t.trade_id == tid) then
    (true, ledger.map (fun t =>
      if t.trade_id = tid then close_trade_row t exit_price exit_reason today else t))
  else
    (false, ledger)

theorem map_id_of_mem {α : Type} (l : List α) (f : α → α) (h : ∀ a ∈ l, f a = a) :
    l.map f = l := by
  induction l with
  | nil => rfl
  | cons a l ih =>
      simp only [List.map_cons, List.cons.injEq]
      exact ⟨h a (by simp), ih (fun b hb => h b (by simp [hb]))⟩

theorem close_trade_row_closed (t : Trade) (p : ℚ) (reason : String) (today : Int)
    (h : t.status = .Closed) : close_trade_row t p reason today = t := by
  rw [close_trade_row, if_pos h]

theorem close_trade_row_is_closed (t : Trade) (p : ℚ) (reason : String) (today : Int) :
    (close_trade_row t p reason today).status = .Closed := by
  rw [close_trade_row]
  by_cases h : t.status = .Closed
  · rw [if_pos h]
    exact h
  · rw [if_neg h]

/-- C3: closing a trade id absent from the ledger fails and leaves the table
as it was; closing a trade id whose row is already `Closed` succeeds while
modifying no field (so a second close with a different exit price and reason
retains the first `exit_price` and `exit_reason`); and after any successful
close every row carrying that trade id is `Closed`. -/
theorem close_trade_idempotent_and_missing (ledger : List Trade) (tid : String)
    (p : ℚ) (reason : String) (today : Int) :
    ((∀ t ∈ ledger, t.trade_id ≠ tid) →
      close_trade ledger tid p reason today = (false, ledger))
    ∧ ((∃ t ∈ ledger, t.trade_id = tid) →
        (∀ t ∈ ledger, t.trade_id = tid → t.status = .Closed) →
        close_trade ledger tid p reason today = (true, ledger))
    ∧ ((∃ t ∈ ledger, t.trade_id = tid) →
        ∀ t2 ∈ (close_trade ledger tid p reason today).2,
          t2.trade_id = tid → t2.status = .Closed) := by
  refine ⟨?_, ?_, ?_⟩
  · intro h
    have hany : ledger.any (fun t => t.trade_id == tid) = false := by
      simp only [List.any_eq_false, beq_iff_eq]
      exact h
    rw [close_trade, hany]
    simp
  · intro hex hall
    have hany : ledger.any (fun t => t.trade_id == tid) = true := by
      rcases hex with ⟨t, ht, htid⟩
      simp only [List.any_eq_true]
      exact ⟨t, ht, by simp [htid]⟩
    rw [close_trade, hany]
    simp only [if_true]
    have hmap : ledger.map (fun t =>
        if t.trade_id = tid then close_trade_row t p reason today else t) = ledger := by
      apply map_id_of_mem
      intro t ht
      by_cases htid : t.trade_id = tid
      · rw [if_pos htid]
        exact close_trade_row_closed t p reason today (hall t ht htid)
      · rw [if_neg htid]
    rw [hmap]
  · intro hex t2 ht2 htid2
    have hany : ledger.any (fun t => t.trade_id == tid) = true := by
      rcases hex with ⟨t, ht, htid⟩
      simp only [List.any_eq_true]
      exact ⟨t, ht, by simp [htid]⟩
    rw [close_trade, hany] at ht2
    simp only [if_true, List.mem_map] at ht2
    rcases ht2 with ⟨t, ht, heq⟩
    by_cases htid : t.trade_id = tid
    · rw [if_pos htid] at heq
      rw [← heq]
      exact close_trade_row_is_closed t p reason today
    · rw [if_neg htid] at heq
      rw [← heq] at htid2
      exact absurd htid2 htid

/-- Concrete ledger for the C3 witness: one freshly opened active trade. -/
def c3Ledger : List Trade :=
  (add_tracked_signal []
    { symbol := some "ALREADYCLOSED", entry_price := some 100,
      stop_loss_price := some 90, target_price := some 120,
      risk_reward_ratio := some 2, atr := some 5,
      date := some "2024-01-01", notes := none } "T1" 0).2

/-- The ledger after the first close of trade `T1` at exit price 110. -/
def c3LedgerClosed : List Trade := (close_trade c3Ledger "T1" 110 "Initial close" 0).2

theorem close_trade_idempotent_and_missing_witness :
    close_trade c3LedgerClosed "T1" 115 "Second attempt" 0 = (true, c3LedgerClosed)
    ∧ c3LedgerClosed.map Trade.exit_price = [some 110]
    ∧ c3LedgerClosed.map Trade.exit_reason = ["Initial close"]
    ∧ close_trade c3LedgerClosed "NONEXISTENT" 100 "Test" 0 = (false, c3LedgerClosed) := by
  refine ⟨?_, by decide, by decide, ?_⟩
  · exact (close_trade_idempotent_and_missing c3LedgerClosed "T1" 115 "Second attempt" 0).2.1
      (by decide) (by decide)
  · exact (close_trade_idempotent_and_missing c3LedgerClosed "NONEXISTENT" 100 "Test" 0).1
      (by decide)

/-- C4 (amended): `add_tracked_signal` fails, writing no row, whenever any of
its required fields (`symbol`, `entry_price`, `stop_loss_price`,
`target_price`, `date`) is missing or null — but `add_manual_historical_pick`
performs no such validation: it returns success and appends a row no matter
which of its numeric arguments are null. -/
theorem open_trade_required_fields :
    (∀ (ledger : List Trade) (sig : SignalData) (tid : String) (today : Int),
      (sig.symbol = none ∨ sig.entry_price = none ∨ sig.stop_loss_price = none
        ∨ sig.target_price = none ∨ sig.date = none) →
      add_tracked_signal ledger sig tid today = (none, ledger))
    ∧ (∀ (ledger : List Trade) (sym : String) (e sl t : Option ℚ)
        (notes tid : String) (today : Int),
      (add_manual_historical_pick ledger sym e sl t notes tid today).1 = some tid
      ∧ (add_manual_historical_pick ledger sym e sl t notes tid today).2.length
          = ledger.length + 1) := by
  constructor
  · intro ledger sig tid today h
    have hcond : (sig.symbol.isSome && sig.entry_price.isSome
        && sig.stop_loss_price.isSome && sig.target_price.isSome
        && sig.date.isSome) = false := by
      rcases h with h | h | h | h | h <;> simp [h]
    rw [add_tracked_signal]
    simp only [hcond, Bool.false_eq_true, if_false]
  · intro ledger sym e sl t notes tid today
    exact ⟨rfl, by simp [add_manual_historical_pick]⟩

/-- A signal dictionary with a null entry price, used to exercise the
validation branch of `add_tracked_signal`. -/
def c4BadSignal : SignalData :=
  { symbol := some "FAIL", entry_price := none, stop_loss_price := some 90,
    target_price := some 120, risk_reward_ratio := none, atr := none,
    date := some "2024-01-01", notes := none }

theorem open_trade_required_fields_witness :
    add_tracked_signal [] c4BadSignal "T1" 0 = (none, [])
    ∧ (add_manual_historical_pick [] "X" none none none "" "T2" 0).1 = some "T2"
    ∧ (add_manual_historical_pick [] "X" none none none "" "T2" 0).2.length = 0 + 1 := by
  refine ⟨?_, ?_, ?_⟩
  · exact open_trade_required_fields.1 [] c4BadSignal "T1" 0 (Or.inr (Or.inl rfl))
  · exact (open_trade_required_fields.2 [] "X" none none none "" "T2" 0).1
  · exact (open_trade_required_fields.2 [] "X" none none none "" "T2" 0).2

/-- Counterexample to C4 as stated: a manual historical pick whose
`entry_price` is null is nevertheless accepted — the operation returns
success and a row is written. -/
theorem open_trade_required_fields_counterexample :
    (add_manual_historical_pick [] "X" none (some 90) (some 120) "" "T1" 0).1 = some "T1"
    ∧ (add_manual_historical_pick [] "X" none (some 90) (some 120) "" "T1" 0).2 ≠ [] := by
  exact ⟨rfl, by simp [add_manual_historical_pick]⟩

/-- C7 (amended): the mark-to-market batch always reports success, updates
every row (none is skipped, fetch failures included); on a failed fetch the
row keeps its previous `current_price` and `unrealized_pnl` — so both stay
missing when they were never set; the unrealized P&L is stored, rounded to
two decimals, exactly when the fetch succeeded and the entry price is
numeric and nonzero. -/
theorem mark_to_market_batch (ledger : List Trade) (fetch : String → Option ℚ) (today : Int) :
    (update_active_trades ledger fetch today).1 = true
    ∧ (update_active_trades ledger fetch today).2.length = ledger.length
    ∧ (update_active_trades ledger fetch today).2 = ledger.map (fun t =>
        if t.status = .Active then update_trade_row t (fetch t.symbol) today else t)
    ∧ (∀ t : Trade, fetch t.symbol = none →
        (update_trade_row t (fetch t.symbol) today).current_price = t.current_price
        ∧ (update_trade_row t (fetch t.symbol) today).unrealized_pnl = t.unrealized_pnl)
    ∧ (∀ (t : Trade) (p e : ℚ), fetch t.symbol = some p → t.entry_price = some e → e ≠ 0 →
        (update_trade_row t (fetch t.symbol) today).unrealized_pnl
          = some (round2 ((p - e) / e * 100)))
    ∧ (∀ t : Trade,
        (update_trade_row t (fetch t.symbol) today).unrealized_pnl ≠ t.unrealized_pnl →
        ∃ p e, fetch t.symbol = some p ∧ t.entry_price = some e ∧ e ≠ 0) := by
  refine ⟨rfl, by simp [update_active_trades], rfl, ?_, ?_, ?_⟩
  · intro t hfetch
    rw [hfetch]
    cases hdate : t.entry_date <;> simp [update_trade_row, hdate]
  · intro t p e hfetch hentry he
    rw [hfetch]
    cases hdate : t.entry_date <;> simp [update_trade_row, hentry, he, hdate]
  · intro t hne
    cases hfetch : fetch t.symbol with
    | none =>
        exfalso
        apply hne
        rw [hfetch]
        cases hdate : t.entry_date <;> simp [update_trade_row, hdate]
    | some p =>
        cases hentry : t.entry_price with
        | none =>
            exfalso
            apply hne
            rw [hfetch]
            cases hdate : t.entry_date <;> simp [update_trade_row, hentry, hdate]
        | some e =>
            by_cases he : e = 0
            · exfalso
              apply hne
              rw [hfetch]
              cases hdate : t.entry_date <;>
                simp [update_trade_row, hentry, he, hdate]
            · exact ⟨p, e, rfl, rfl, he⟩

/-- An active trade that already carries a stored current price and
unrealized P&L from an earlier successful update. -/
def c7Trade : Trade :=
  { trade_id := "T7", symbol := "AAPL", entry_date := some 0,
    entry_price := some 100, stop_loss_price := some 90, target_price := some 120,
    risk_reward_ratio := some 2, atr_at_entry := none, trade_type := .TrackedSignal,
    source_signal_date := some "2024-01-01", status := .Active,
    current_price := some 50, unrealized_pnl := some (-50), exit_date := none,
    exit_price := none, realized_pnl := none, exit_reason := "",
    holding_period := none, notes := "" }

/-- Counterexample to C7 as stated: when the fetch fails for a trade that
already has a stored `current_price`, the batch keeps the old value instead
of leaving the field missing (the batch still succeeds). -/
theorem mark_to_market_counterexample :
    (update_active_trades [c7Trade] (fun _ => none) 3).2.map Trade.current_price = [some 50]
    ∧ (update_active_trades [c7Trade] (fun _ => none) 3).2.map Trade.current_price
        ≠ [(none : Option ℚ)]
    ∧ (update_active_trades [c7Trade] (fun _ => none) 3).1 = true := by
  refine ⟨by decide, by decide, rfl⟩

/-- A fresh active trade with no stored price, and a fetch that succeeds. -/
def c7FreshTrade : Trade :=
  { trade_id := "T8", symbol := "MSFT", entry_date := some 0,
    entry_price := some 100, stop_loss_price := some 90, target_price := some 120,
    risk_reward_ratio := some 2, atr_at_entry := none, trade_type := .TrackedSignal,
    source_signal_date := some "2024-01-01", status := .Active,
    current_price := none, unrealized_pnl := none, exit_date := none,
    exit_price := none, realized_pnl := none, exit_reason := "",
    holding_period := none, notes := "" }

def c7Fetch : String → Option ℚ := fun _ => some 108

def c7FetchFail : String → Option ℚ := fun _ => none

theorem mark_to_market_batch_witness :
    (update_active_trades [c7FreshTrade] c7Fetch 5).1 = true
    ∧ (update_trade_row c7FreshTrade (c7Fetch c7FreshTrade.symbol) 5).unrealized_pnl
        = some (round2 ((108 - 100) / 100 * 100))
    ∧ (update_trade_row c7FreshTrade (c7FetchFail c7FreshTrade.symbol) 5).current_price
        = c7FreshTrade.current_price := by
  refine ⟨(mark_to_market_batch [c7FreshTrade] c7Fetch 5).1, ?_, ?_⟩
  · exact (mark_to_market_batch [c7FreshTrade] c7Fetch 5).2.2.2.2.1 c7FreshTrade 108 100
      rfl rfl (by norm_num)
  · exact ((mark_to_market_batch [c7FreshTrade] c7FetchFail 5).2.2.2.1 c7FreshTrade rfl).1

/-- C8 (amended): the stored risk:reward ratio of a manual historical pick is
`(target − entry) / (entry − stop)` exactly when all three prices are
present and nonzero and the risk per share `entry − stop` exceeds `1e-9`;
otherwise it is null — in particular when entry equals stop (no division
error is possible), and entry=100, stop=90, target=120 gives 2. -/
theorem manual_pick_rr_ratio :
    (∀ (ledger : List Trade) (sym : String) (e sl t : Option ℚ)
        (notes tid : String) (today : Int),
      (add_manual_historical_pick ledger sym e sl t notes tid today).2.map
          Trade.risk_reward_ratio
        = ledger.map Trade.risk_reward_ratio ++ [manual_rr e sl t])
    ∧ (∀ e sl t : ℚ, e ≠ 0 → sl ≠ 0 → t ≠ 0 → e - sl > 1 / 1000000000 →
        manual_rr (some e) (some sl) (some t) = some ((t - e) / (e - sl)))
    ∧ (∀ e t : ℚ, manual_rr (some e) (some e) (some t) = none)
    ∧ manual_rr (some 100) (some 90) (some 120) = some 2 := by
  refine ⟨?_, ?_, ?_, by norm_num [manual_rr]⟩
  · intro ledger sym e sl t notes tid today
    simp [add_manual_historical_pick]
  · intro e sl t he hsl ht hgt
    simp only [manual_rr, ne_eq]
    rw [if_pos ⟨he, ht, hsl⟩, if_pos hgt]
  · intro e t
    simp only [manual_rr, sub_self]
    have h : ¬ ((0 : ℚ) > 1 / 1000000000) := by norm_num
    by_cases hcond : e ≠ 0 ∧ t ≠ 0 ∧ e ≠ 0
    · rw [if_pos hcond, if_neg h]
    · rw [if_neg hcond]

theorem manual_pick_rr_ratio_witness :
    manual_rr (some 100) (some 90) (some 120) = some ((120 - 100) / ((100 : ℚ) - 90)) := by
  exact manual_pick_rr_ratio.2.1 100 90 120 (by norm_num) (by norm_num) (by norm_num)
    (by norm_num)

/-- Counterexample to C8 as stated: with entry 90 below stop 100 the code
stores no ratio at all, while the claimed formula yields −3. -/
theorem manual_pick_rr_ratio_counterexample :
    (add_manual_historical_pick [] "SHORT" (some 90) (some 100) (some 120) "" "T1" 0).2.map
        Trade.risk_reward_ratio = [none]
    ∧ (none : Option ℚ) ≠ some ((120 - 90) / ((90 : ℚ) - 100)) := by
  refine ⟨by norm_num [add_manual_historical_pick, manual_rr], by simp⟩

/-- The metrics block returned by `_calculate_metrics` in
`scripts/report_generator.py` (lines 28-80). -/
structure Metrics where
  total_trades : Nat
  winning_trades : Nat
  losing_trades : Nat
  win_rate : ℚ
  total_pnl : ℚ
  avg_win_pnl : ℚ
  avg_loss_pnl : ℚ
  profit_factor : ℚ
  sum_positive_pnl : ℚ
  sum_negative_pnl : ℚ
  deriving DecidableEq, Repr

/-- The all-zero metrics block the code starts from and returns for an empty
input. -/
def zeroMetrics : Metrics :=
  { total_trades := 0, winning_trades := 0, losing_trades := 0, win_rate := 0,
    total_pnl := 0, avg_win_pnl := 0, avg_loss_pnl := 0, profit_factor := 0,
    sum_positive_pnl := 0, sum_negative_pnl := 0 }

/-- `_safe_division` from `scripts/report_generator.py` (lines 22-26). -/
def safe_division (numerator denominator default_val : ℚ) : ℚ :=
  if denominator = 0 then default_val else numerator / denominator

/-- `_calculate_metrics` from `scripts/report_generator.py` (lines 28-80):
the input is the `realized_pnl` column, with `none` for cells that do not
coerce to a number; those rows are dropped, a trade with P&L strictly
positive counts as winning and one with P&L at or below zero (zero included)
as losing, and the derived ratios go through `_safe_division`. -/
def calculate_metrics (rows : List (Option ℚ)) : Metrics :=
  if rows.isEmpty then zeroMetrics
  else
    let cleaned := rows.filterMap id
    if cleaned.isEmpty then zeroMetrics
    else
      let winning := cleaned.filter (fun x => decide (0 < x))
      let losing := cleaned.filter (fun x => decide (x ≤ 0))
      let sum_positive := winning.sum
      let sum_negative := losing.sum
      { total_trades := cleaned.length
        winning_trades := winning.length
        losing_trades := losing.length
        win_rate := safe_division (winning.length : ℚ) (cleaned.length : ℚ) 0 * 100
        total_pnl := cleaned.sum
        avg_win_pnl := safe_division sum_positive (winning.length : ℚ) 0
        avg_loss_pnl := safe_division sum_negative (losing.length : ℚ) 0
        profit_factor := safe_division sum_positive (abs sum_negative) 0
        sum_positive_pnl := sum_positive
        sum_negative_pnl := sum_negative }

theorem length_filter_pos_add_nonpos (l : List ℚ) :
    (l.filter (fun x => decide (0 < x))).length
      + (l.filter (fun x => decide (x ≤ 0))).length = l.length := by
  induction l with
  | nil => rfl
  | cons a l ih =>
      by_cases h : 0 < a
      · simp only [List.filter_cons, decide_eq_true_eq, if_pos h, if_neg (not_le.mpr h),
          List.length_cons]
        omega
      · simp only [List.filter_cons, decide_eq_true_eq, if_neg h, if_pos (not_lt.mp h),
          List.length_cons]
        omega

/-- Shorthand for the cleaned realized-P&L column: the rows that coerced to
a number. -/
def cleanedPnl (rows : List (Option ℚ)) : List ℚ := rows.filterMap id

theorem calculate_metrics_empty (rows : List (Option ℚ)) (h : cleanedPnl rows = []) :
    calculate_metrics rows = zeroMetrics := by
  by_cases hrows : rows.isEmpty
  · rw [calculate_metrics, if_pos hrows]
  · rw [calculate_metrics, if_neg hrows]
    have h2 : (rows.filterMap id).isEmpty = true := by
      rw [show rows.filterMap id = cleanedPnl rows from rfl, h]
      rfl
    simp only [h2, if_true]

theorem calculate_metrics_nonempty (rows : List (Option ℚ)) (h : ¬ cleanedPnl rows = []) :
    calculate_metrics rows =
      { total_trades := (cleanedPnl rows).length
        winning_trades := ((cleanedPnl rows).filter (fun x => decide (0 < x))).length
        losing_trades := ((cleanedPnl rows).filter (fun x => decide (x ≤ 0))).length
        win_rate := safe_division
          (((cleanedPnl rows).filter (fun x => decide (0 < x))).length : ℚ)
          ((cleanedPnl rows).length : ℚ) 0 * 100
        total_pnl := (cleanedPnl rows).sum
        avg_win_pnl := safe_division
          ((cleanedPnl rows).filter (fun x => decide (0 < x))).sum
          (((cleanedPnl rows).filter (fun x => decide (0 < x))).length : ℚ) 0
        avg_loss_pnl := safe_division
          ((cleanedPnl rows).filter (fun x => decide (x ≤ 0))).sum
          (((cleanedPnl rows).filter (fun x => decide (x ≤ 0))).length : ℚ) 0
        profit_factor := safe_division
          ((cleanedPnl rows).filter (fun x => decide (0 < x))).sum
          (abs ((cleanedPnl rows).filter (fun x => decide (x ≤ 0))).sum) 0
        sum_positive_pnl := ((cleanedPnl rows).filter (fun x => decide (0 < x))).sum
        sum_negative_pnl := ((cleanedPnl rows).filter (fun x => decide (x ≤ 0))).sum } := by
  have hrows : rows.isEmpty = false := by
    cases rows with
    | nil => exact absurd rfl h
    | cons a l => rfl
  have hclean : (rows.filterMap id).isEmpty = false := by
    rw [List.isEmpty_eq_false_iff_exists_mem]
    rcases List.exists_mem_of_ne_nil _ h with ⟨x, hx⟩
    exact ⟨x, hx⟩
  rw [calculate_metrics]
  simp only [hrows, Bool.false_eq_true, if_false, hclean]
  rfl

theorem length_filterMap_id (l : List (Option ℚ)) :
    (l.filterMap id).length = l.countP (fun x => x.isSome) := by
  induction l with
  | nil => rfl
  | cons a l ih =>
      cases a <;> simp [List.filterMap_cons, List.countP_cons, ih]

/-- C6: in every metrics block, `win_rate` is `winning / total × 100`, a
trade with P&L at or below zero (zero included) counts as losing, and
`profit_factor` is the positive-P&L sum over the absolute negative-P&L sum,
zero when that denominator is zero; on realized P&L values
`[100, −50, 0, 200]` this yields total 250, win rate 50 and profit factor
6. -/
theorem metrics_win_rate_profit_factor :
    (∀ rows : List (Option ℚ),
      (calculate_metrics rows).win_rate
          = ((calculate_metrics rows).winning_trades : ℚ)
              / ((calculate_metrics rows).total_trades : ℚ) * 100
      ∧ (calculate_metrics rows).losing_trades
          = ((rows.filterMap id).filter (fun x => decide (x ≤ 0))).length
      ∧ (calculate_metrics rows).profit_factor
          = (if (calculate_metrics rows).sum_negative_pnl = 0 then 0
             else (calculate_metrics rows).sum_positive_pnl
                    / abs (calculate_metrics rows).sum_negative_pnl))
    ∧ (calculate_metrics [some 100, some (-50), some 0, some 200]).total_pnl = 250
    ∧ (calculate_metrics [some 100, some (-50), some 0, some 200]).win_rate = 50
    ∧ (calculate_metrics [some 100, some (-50), some 0, some 200]).profit_factor = 6 := by
  have hconc : ¬ cleanedPnl [some 100, some (-50), some 0, some 200] = [] := by
    simp [cleanedPnl]
  have hconcEq := calculate_metrics_nonempty [some 100, some (-50), some 0, some 200] hconc
  refine ⟨?_, ?_, ?_, ?_⟩
  · intro rows
    by_cases hclean : cleanedPnl rows = []
    · rw [calculate_metrics_empty rows hclean]
      refine ⟨by norm_num [zeroMetrics], ?_, by norm_num [zeroMetrics]⟩
      rw [show rows.filterMap id = cleanedPnl rows from rfl, hclean]
      rfl
    · rw [calculate_metrics_nonempty rows hclean]
      dsimp only [cleanedPnl]
      have hlen : (((rows.filterMap id) : List ℚ).length : ℚ) ≠ 0 := by
        have : 0 < (cleanedPnl rows).length := List.length_pos.mpr hclean
        exact_mod_cast Nat.pos_iff_ne_zero.mp this
      refine ⟨?_, rfl, ?_⟩
      · rw [safe_division, if_neg hlen]
      · rw [safe_division]
        by_cases hneg : (((rows.filterMap id) : List ℚ).filter (fun x => decide (x ≤ 0))).sum = 0
        · rw [if_pos (by rw [hneg]; simp), if_pos hneg]
        · rw [if_neg (fun hc => hneg (abs_eq_zero.mp hc)), if_neg hneg]
  · rw [hconcEq]
    dsimp only [cleanedPnl]
    norm_num [safe_division, List.filterMap, List.filter]
  · rw [hconcEq]
    dsimp only [cleanedPnl]
    norm_num [safe_division, List.filterMap, List.filter]
  · rw [hconcEq]
    dsimp only [cleanedPnl]
    norm_num [safe_division, List.filterMap, List.filter]

/-- C10: every metrics block satisfies `winning + losing = total`, where the
total counts exactly the rows whose realized P&L parses as a number, and the
win rate always lies between 0 and 100. -/
theorem metrics_partition_invariant (rows : List (Option ℚ)) :
    (calculate_metrics rows).winning_trades + (calculate_metrics rows).losing_trades
        = (calculate_metrics rows).total_trades
    ∧ (calculate_metrics rows).total_trades = rows.countP (fun x => x.isSome)
    ∧ 0 ≤ (calculate_metrics rows).win_rate
    ∧ (calculate_metrics rows).win_rate ≤ 100 := by
  by_cases hclean : cleanedPnl rows = []
  · rw [calculate_metrics_empty rows hclean]
    have h := length_filterMap_id rows
    rw [show rows.filterMap id = cleanedPnl rows from rfl, hclean] at h
    simp only [List.length_nil] at h
    exact ⟨rfl, h, by norm_num [zeroMetrics], by norm_num [zeroMetrics]⟩
  · rw [calculate_metrics_nonempty rows hclean]
    dsimp only
    have hpart := length_filter_pos_add_nonpos (cleanedPnl rows)
    have hcount := length_filterMap_id rows
    have hlen : (0 : ℚ) < ((cleanedPnl rows).length : ℚ) := by
      have : 0 < (cleanedPnl rows).length := List.length_pos.mpr hclean
      exact_mod_cast this
    refine ⟨hpart, hcount, ?_, ?_⟩
    · rw [safe_division, if_neg (ne_of_gt hlen)]
      positivity
    · rw [safe_division, if_neg (ne_of_gt hlen)]
      have hle : (((cleanedPnl rows).filter (fun x => decide (0 < x))).length : ℚ)
          ≤ ((cleanedPnl rows).length : ℚ) := by
        exact_mod_cast List.length_filter_le _ _
      have hdiv : (((cleanedPnl rows).filter (fun x => decide (0 < x))).length : ℚ)
          / ((cleanedPnl rows).length : ℚ) ≤ 1 := by
        rw [div_le_one hlen]
        exact hle
      nlinarith [hdiv]

/-- Modelled from the spec: `scripts/high_current.py` (the signal ranking
engine exercised by `tests/scripts/test_high_current.py`) is absent from the
sources, so a passing candidate is modelled per section 4.5 of the spec as
its strategy score plus the optional historical strength score used as the
tie-break (null when the symbol has no historical record). -/
structure Candidate where
  symbol : String
  score : ℚ
  strength : Option ℚ
  deriving DecidableEq, Repr

/-- Ordering on the optional historical strength: a missing record loses to
any present one, present records compare by value. -/
def strengthLt : Option ℚ → Option ℚ → Bool
  | none, some _ => true
  | some x, some y => decide (x < y)
  | _, none => false

/-- Modelled from the spec: candidate `c` beats candidate `d` when its score
is strictly higher, or the scores tie and its historical strength score is
strictly higher — the ranking rule of section 4.5. -/
def beats (c d : Candidate) : Bool :=
  if d.score < c.score then true
  else if c.score = d.score then strengthLt d.strength c.strength
  else false

/-- One step of the selection fold: the incumbent is replaced only by a
strictly better candidate, so full ties keep the first-seen candidate. -/
def selStep (best c : Candidate) : Candidate := if beats c best then c else best

/-- Modelled from the spec: the best candidate of a segment (or, applied to
the concatenation of all segments, the overall best) under the
score-then-strength ordering; `none` when no candidate passed. -/
def selectBest : List Candidate → Option Candidate
  | [] => none
  | c :: cs => some (cs.foldl selStep c)

theorem strengthLt_irrefl (a : Option ℚ) : strengthLt a a = false := by
  cases a <;> simp [strengthLt]

theorem strengthLt_trans {a b c : Option ℚ} (h1 : strengthLt a b = true)
    (h2 : strengthLt b c = true) : strengthLt a c = true := by
  cases a <;> cases b <;> cases c <;> simp_all [strengthLt]
  exact lt_trans h1 h2

theorem strengthLt_total {a b : Option ℚ} (h1 : strengthLt a b = false)
    (h2 : strengthLt b a = false) : a = b := by
  cases a <;> cases b <;> simp_all [strengthLt]
  exact le_antisymm h2 h1

theorem beats_iff {c d : Candidate} :
    beats c d = true ↔ d.score < c.score
      ∨ (c.score = d.score ∧ strengthLt d.strength c.strength = true) := by
  rw [beats]
  by_cases h1 : d.score < c.score
  · simp [h1]
  · by_cases h2 : c.score = d.score
    · simp [h1, h2]
    · have h3 : ¬ (d.score < c.score ∨ (c.score = d.score ∧
          strengthLt d.strength c.strength = true)) := by
        rintro (h | ⟨h, _⟩) <;> [exact h1 h; exact h2 h]
      simp [h1, h2, h3]

theorem strengthLt_false_trans {a b c : Option ℚ} (h1 : strengthLt a b = false)
    (h2 : strengthLt b c = false) : strengthLt a c = false := by
  cases a <;> cases b <;> cases c <;> simp_all [strengthLt, not_lt]
  exact le_trans h2 h1

theorem beats_false_iff {c d : Candidate} :
    beats c d = false ↔ c.score < d.score
      ∨ (c.score = d.score ∧ strengthLt d.strength c.strength = false) := by
  rw [← Bool.not_eq_true, beats_iff]
  constructor
  · intro h
    push_neg at h
    rcases lt_trichotomy c.score d.score with hlt | heq | hgt
    · exact Or.inl hlt
    · exact Or.inr ⟨heq, by simpa using h.2 heq⟩
    · exact absurd hgt (not_lt.mpr h.1)
  · rintro (h | ⟨heq, hs⟩)
    · push_neg
      exact ⟨le_of_lt h, fun he => absurd he (ne_of_lt h)⟩
    · push_neg
      exact ⟨le_of_eq heq, fun _ => by simp [hs]⟩

theorem beats_irrefl (c : Candidate) : beats c c = false := by
  rw [beats_false_iff]
  exact Or.inr ⟨rfl, strengthLt_irrefl c.strength⟩

theorem beats_trans {a b c : Candidate} (h1 : beats a b = true) (h2 : beats b c = true) :
    beats a c = true := by
  rw [beats_iff] at h1 h2 ⊢
  rcases h1 with h1 | ⟨h1e, h1s⟩ <;> rcases h2 with h2 | ⟨h2e, h2s⟩
  · exact Or.inl (lt_trans h2 h1)
  · exact Or.inl (h2e ▸ h1)
  · exact Or.inl (h1e ▸ h2)
  · exact Or.inr ⟨h1e.trans h2e, strengthLt_trans h2s h1s⟩

theorem beats_not_trans {a b c : Candidate} (h1 : beats a b = false)
    (h2 : beats b c = false) : beats a c = false := by
  rw [beats_false_iff] at h1 h2 ⊢
  rcases h1 with h1 | ⟨h1e, h1s⟩ <;> rcases h2 with h2 | ⟨h2e, h2s⟩
  · exact Or.inl (lt_trans h1 h2)
  · exact Or.inl (h2e ▸ h1)
  · exact Or.inl (h1e ▸ h2)
  · exact Or.inr ⟨h1e.trans h2e, strengthLt_false_trans h2s h1s⟩

theorem beats_false_of_beats {x w1 w2 : Candidate} (hw : beats w1 w2 = true)
    (hx : beats x w2 = false) : beats x w1 = false := by
  by_cases h : beats x w1 = true
  · exfalso
    have := beats_trans h hw
    simp_all
  · exact Bool.not_eq_true _ ▸ h

theorem foldl_selStep_mem (cs : List Candidate) (b : Candidate) :
    cs.foldl selStep b = b ∨ cs.foldl selStep b ∈ cs := by
  induction cs generalizing b with
  | nil => exact Or.inl rfl
  | cons d cs ih =>
      rw [List.foldl_cons]
      rcases ih (selStep b d) with h | h
      · rw [h, selStep]
        by_cases hb : beats d b = true
        · rw [if_pos hb]
          exact Or.inr (by simp)
        · rw [if_neg hb]
          exact Or.inl rfl
      · exact Or.inr (by simp [h])

theorem foldl_selStep_dominates (cs : List Candidate) (b : Candidate) :
    (∀ x ∈ cs, beats x (cs.foldl selStep b) = false)
      ∧ beats b (cs.foldl selStep b) = false := by
  induction cs generalizing b with
  | nil => exact ⟨by simp, beats_irrefl b⟩
  | cons d cs ih =>
      by_cases hb : beats d b = true
      · have hsel : selStep b d = d := by rw [selStep, if_pos hb]
        rw [List.foldl_cons, hsel]
        rcases ih d with ⟨ihall, ihb⟩
        refine ⟨?_, ?_⟩
        · intro x hx
          rcases List.mem_cons.mp hx with h | h
          · rw [h]
            exact ihb
          · exact ihall x h
        · have hbd : beats b d = false := by
            by_cases h : beats b d = true
            · exfalso
              have := beats_trans h hb
              simp_all [beats_irrefl]
            · exact Bool.not_eq_true _ ▸ h
          exact beats_not_trans hbd ihb
      · have hsel : selStep b d = b := by rw [selStep, if_neg hb]
        rw [List.foldl_cons, hsel]
        rcases ih b with ⟨ihall, ihb⟩
        refine ⟨?_, ihb⟩
        intro x hx
        rcases List.mem_cons.mp hx with h | h
        · rw [h]
          exact beats_not_trans (Bool.not_eq_true _ ▸ hb) ihb
        · exact ihall x h

theorem foldl_selStep_fixed (cs : List Candidate) (b : Candidate)
    (h : ∀ x ∈ cs, beats x b = false) : cs.foldl selStep b = b := by
  induction cs with
  | nil => rfl
  | cons d cs ih =>
      rw [List.foldl_cons, selStep, if_neg (by simp [h d (by simp)])]
      exact ih (fun x hx => h x (by simp [hx]))

theorem selectBest_mem_dominates (l : List Candidate) (w : Candidate)
    (h : selectBest l = some w) : w ∈ l ∧ ∀ c ∈ l, beats c w = false := by
  cases l with
  | nil => simp [selectBest] at h
  | cons a cs =>
      rw [selectBest, Option.some.injEq] at h
      rcases foldl_selStep_dominates cs a with ⟨hall, ha⟩
      rw [h] at hall ha
      constructor
      · rcases foldl_selStep_mem cs a with hm | hm
        · rw [h] at hm
          rw [hm]
          simp
        · rw [h] at hm
          exact List.mem_cons.mpr (Or.inr hm)
      · intro c hc
        rcases List.mem_cons.mp hc with hh | hh
        · rw [hh]
          exact ha
        · exact hall c hh

/-- C1: whenever the ranking selects a winner for each of two segments, each
winner is one of its segment's passing candidates and no candidate of that
segment beats it under the score-then-historical-strength ordering, and if
the first segment's winner beats the second's, the overall selection over
all candidates of both segments returns the first segment's winner. -/
theorem ranking_per_segment_and_overall (seg1 seg2 : List Candidate) (w1 w2 : Candidate)
    (h1 : selectBest seg1 = some w1) (h2 : selectBest seg2 = some w2)
    (hbeats : beats w1 w2 = true) :
    (w1 ∈ seg1 ∧ ∀ c ∈ seg1, beats c w1 = false)
    ∧ (w2 ∈ seg2 ∧ ∀ c ∈ seg2, beats c w2 = false)
    ∧ selectBest (seg1 ++ seg2) = some w1 := by
  refine ⟨selectBest_mem_dominates seg1 w1 h1, selectBest_mem_dominates seg2 w2 h2, ?_⟩
  cases seg1 with
  | nil => simp [selectBest] at h1
  | cons a cs =>
      rw [selectBest, Option.some.injEq] at h1
      rw [List.cons_append, selectBest, Option.some.injEq, List.foldl_append, h1]
      apply foldl_selStep_fixed
      intro x hx
      have hx2 : beats x w2 = false :=
        (selectBest_mem_dominates seg2 w2 h2).2 x hx
      exact beats_false_of_beats hbeats hx2

/-- The ranking example of section 8 of the spec: candidates A, B, C in one
segment with scores 0.95, 0.85, 0.90 and historical strengths 95, 90, 80. -/
def candA : Candidate := { symbol := "M1S1", score := 95 / 100, strength := some 95 }

def candB : Candidate := { symbol := "M1S2", score := 85 / 100, strength := some 90 }

def candC : Candidate := { symbol := "M1S3", score := 90 / 100, strength := some 80 }

/-- The second segment's best candidate, with score 0.90. -/
def candD : Candidate := { symbol := "M2S1", score := 90 / 100, strength := some 85 }

theorem ranking_per_segment_and_overall_witness :
    selectBest [candA, candB, candC] = some candA
    ∧ selectBest [candD] = some candD
    ∧ selectBest ([candA, candB, candC] ++ [candD]) = some candA := by
  have hA : selectBest [candA, candB, candC] = some candA := by
    norm_num [selectBest, selStep, beats, strengthLt, candA, candB, candC, List.foldl]
  have hD : selectBest [candD] = some candD := by
    norm_num [selectBest, List.foldl]
  have hbeats : beats candA candD = true := by
    norm_num [beats, candA, candD]
  exact ⟨hA, hD,
    (ranking_per_segment_and_overall [candA, candB, candC] [candD] candA candD
      hA hD hbeats).2.2⟩

end SwingStock
